import Mathlib

/-
Verification of the statement-execution bridge in
src/spark/src/main/resources/python/zeppelin_pyspark.py.

The embedding models text as List Char.  Python string primitives used by
the source (str.split, str.strip, str.startswith, str.find) are modelled
by executable functions below with the same semantics on ASCII text.
The dynamic-language parts that the source delegates to the CPython
runtime (compile/exec/eval, traceback formatting, dir()) are modelled by
a small statement language and explicit formatting functions; every
control-flow decision of the source itself (line filtering, head/tail
split, exec vs single mode, the inner wrap-and-reraise, the outer
exception handlers, the completion set construction and filtering, the
dict-like proxy) is translated directly from the source.
-/

namespace Zep

/-- Conversion from a Lean string literal to the List Char text model. -/
def str (s : String) : List Char := s.data

/-- Whitespace characters recognised by Python str.strip. -/
def isPySpace (c : Char) : Bool :=
  c = ' ' || c = '\t' || c = '\n' || c = '\r' || c = Char.ofNat 11 || c = Char.ofNat 12

/-- Model of Python str.strip: drop whitespace from both ends. -/
def pyStrip (l : List Char) : List Char :=
  ((l.dropWhile isPySpace).reverse.dropWhile isPySpace).reverse

/-- Model of Python str.startswith: does the text begin with the pattern. -/
def startsWithL : List Char → List Char → Bool
  | _, [] => true
  | [], _ :: _ => false
  | c :: cs, p :: ps => (c = p) && startsWithL cs ps

/-- Auxiliary splitter accumulating the current chunk. -/
def splitOnCharAux (sep : Char) : List Char → List Char → List (List Char)
  | [], acc => [acc.reverse]
  | c :: cs, acc =>
    if c = sep then acc.reverse :: splitOnCharAux sep cs []
    else splitOnCharAux sep cs (c :: acc)

/-- Model of Python str.split with an explicit one-character separator
(empty chunks are kept, as Python does for an explicit separator). -/
def splitOnChar (sep : Char) (l : List Char) : List (List Char) :=
  splitOnCharAux sep l []

/-- Model of req.statements().split of the source, line 268: split on newline. -/
def splitOnNl (l : List Char) : List (List Char) := splitOnChar '\n' l

/-- Model of the newline join at source line 287. -/
def joinNl : List (List Char) → List Char
  | [] => []
  | [l] => l
  | l :: l2 :: ls => l ++ '\n' :: joinNl (l2 :: ls)

/-- Model of Python str.find restricted to success/failure: index of the
first occurrence of the needle, or none. -/
def findSub (needle : List Char) : List Char → Option Nat
  | [] => if startsWithL [] needle then some 0 else none
  | c :: t =>
    if startsWithL (c :: t) needle then some 0
    else (findSub needle t).map (fun n => n + 1)

/-- Exceptions distinguished by the outer handlers of the main loop:
faults surfaced from the host runtime (Py4JJavaError) and local faults;
each carries its message text. -/
inductive PyErr where
  | py4jError : List Char → PyErr
  | localError : List Char → PyErr
deriving DecidableEq

/-- Expressions of the modelled statement language.  callPy4J models a
remote call into the host runtime that raises Py4JJavaError, which is
how a host-originated fault arises during unit execution. -/
inductive Expr where
  | lit : Int → Expr
  | var : List Char → Expr
  | add : Expr → Expr → Expr
  | callPy4J : List Char → Expr
deriving DecidableEq

/-- Top-level syntactic units: assignments and expression statements. -/
inductive Stmt where
  | assign : List Char → Expr → Stmt
  | exprSt : Expr → Stmt
deriving DecidableEq

/-- The execution namespace: the module globals the source exec-utes
against, modelled as an association list from names to values. -/
abbrev Namespace := List (List Char × Int)

/-- Name lookup in the namespace (first binding wins, as in a dict). -/
def lookupNs : Namespace → List Char → Option Int
  | [], _ => none
  | (k, v) :: t, x => if k = x then some v else lookupNs t x

/-- Dict-style update of the namespace: replace an existing binding in
place or append a new one. -/
def nsSet : Namespace → List Char → Int → Namespace
  | [], x, v => [(x, v)]
  | (k, w) :: t, x, v => if k = x then (x, v) :: t else (k, w) :: nsSet t x v

/-- Expression evaluation; an unbound name raises NameError and a host
call raises Py4JJavaError. -/
def evalExpr (ns : Namespace) : Expr → Except PyErr Int
  | .lit n => .ok n
  | .var x =>
    match lookupNs ns x with
    | some v => .ok v
    | none => .error (.localError (str "NameError: name " ++ x ++ str " is not defined"))
  | .add a b =>
    match evalExpr ns a with
    | .error e => .error e
    | .ok va =>
      match evalExpr ns b with
      | .error e => .error e
      | .ok vb => .ok (va + vb)
  | .callPy4J m => .error (.py4jError m)

/-- Compilation modes of the source, line 293 and line 298: exec
(statement mode, no value echo) and single (interactive mode). -/
inductive Mode where
  | exec
  | single
deriving DecidableEq

/-- Display representation of a value, as echoed by interactive mode. -/
def pyReprInt (v : Int) : List Char := (toString v).data

/-- Execution of one unit in a given mode against the namespace.
Returns the updated namespace and the text the unit writes to the
output stream: in single mode an expression statement echoes the
display representation of its value followed by a newline, in exec mode
nothing is echoed; assignments never echo. -/
def execStmt (mode : Mode) (ns : Namespace) : Stmt → Except PyErr (Namespace × List Char)
  | .assign x e =>
    match evalExpr ns e with
    | .error er => .error er
    | .ok v => .ok (nsSet ns x v, [])
  | .exprSt e =>
    match evalExpr ns e with
    | .error er => .error er
    | .ok v =>
      match mode with
      | .exec => .ok (ns, [])
      | .single => .ok (ns, pyReprInt v ++ ['\n'])

/-- Sequential execution of units in one mode, accumulating output and
stopping at the first failure (the failing unit leaves the namespace as
the successful units left it; later units are not executed). -/
def runSeq (mode : Mode) (ns : Namespace) (out : List Char) :
    List Stmt → Namespace × List Char × Option PyErr
  | [] => (ns, out, none)
  | s :: rest =>
    match execStmt mode ns s with
    | .ok p => runSeq mode p.1 (out ++ p.2) rest
    | .error e => (ns, out, some e)

/-- Header line of a CPython traceback, as produced by traceback.format_exc. -/
def tracebackHeader : List Char := str "Traceback (most recent call last):\n"

/-- A local stack frame line of a CPython traceback. -/
def stdinFrame : List Char := str "  File \"<stdin>\", line 1, in <module>\n"

/-- Final line of a traceback: exception type and message. -/
def errText : PyErr → List Char
  | .py4jError m => str "Py4JJavaError: " ++ m ++ ['\n']
  | .localError m => m ++ ['\n']

/-- Model of traceback.format_exc for a directly raised exception. -/
def pyFormatExc (e : PyErr) : List Char := tracebackHeader ++ stdinFrame ++ errText e

/-- Model of traceback.format_exc in the outer bare-except handler after
the inner handler (source lines 300-301) re-raised
Exception(traceback.format_exc()): the report is a fresh local traceback
whose exception line carries the inner traceback text as its message. -/
def wrapFormatExc (inner : List Char) : List Char :=
  tracebackHeader ++ stdinFrame ++ str "Exception: " ++ inner ++ ['\n']

/-- Diagnostic text reported for a unit-execution failure: the inner
except wraps the traceback in a plain Exception (line 301), which the
typed Py4JJavaError handler cannot catch, so the bare except (line 311)
formats the wrapping exception. -/
def failText (e : PyErr) : List Char := wrapFormatExc (pyFormatExc e)

/-- Model of str(sys.exc_info()), appended by the Py4JJavaError handler. -/
def excInfoStr (e : PyErr) : List Char := str "(exc info: " ++ errText e ++ str ")"

/-- The host-side error marker searched for at source line 306. -/
def py4jMarker : List Char := str "Py4JJavaError:"

/-- Result reported through intp.setStatementsFinished: text and error flag. -/
structure Report where
  text : List Char
  isError : Bool
deriving DecidableEq

/-- The outer Py4JJavaError handler, source lines 304-309: locate the
marker in the captured trace, truncate everything before it when found,
and append the exception-info text. -/
def py4jOuterHandler (trace info : List Char) : Report :=
  match findSub py4jMarker trace with
  | some i => ⟨trace.drop i ++ info, true⟩
  | none => ⟨trace ++ info, true⟩

/-- Diagnostic reported when compile of the cleaned batch raises
SyntaxError, which the bare except formats directly (no inner wrap). -/
def parseErrorText : List Char :=
  tracebackHeader ++ stdinFrame ++ str "SyntaxError: invalid syntax\n"

/-- Decision of the line filter at source lines 277-281: a line is kept
when its stripped form is nonempty and does not begin with the comment
marker. -/
def keepLine (s : List Char) : Bool :=
  !((pyStrip s).isEmpty || startsWithL (pyStrip s) (str "#"))

/-- The final_code loop of source lines 272-281: discard a line when its
stripped form is empty or starts with the comment marker, otherwise keep
the original unstripped line, preserving order.  (The s == None guard of
line 273 is vacuous for the results of a string split.) -/
def buildFinalCode : List (List Char) → List (List Char)
  | [] => []
  | s :: rest =>
    if (pyStrip s).isEmpty || startsWithL (pyStrip s) (str "#") then buildFinalCode rest
    else s :: buildFinalCode rest

/-- Numeric value of a digit string. -/
def natOfDigitsAux (acc : Nat) : List Char → Nat
  | [] => acc
  | c :: t => natOfDigitsAux (acc * 10 + (c.toNat - '0'.toNat)) t

/-- Token test: nonempty all-digit text. -/
def isNatTok (l : List Char) : Bool := !l.isEmpty && l.all (fun c => c.isDigit)

/-- Token test: a Python identifier. -/
def isIdentTok : List Char → Bool
  | [] => false
  | c :: t => (c.isAlpha || c = '_') && t.all (fun d => d.isAlphanum || d = '_')

/-- Model of CPython compile (restricted to the fragment exercised here):
an atom is an integer literal or a name. -/
def parseAtom (l : List Char) : Option Expr :=
  let t := pyStrip l
  if isNatTok t then some (.lit (Int.ofNat (natOfDigitsAux 0 t)))
  else if isIdentTok t then some (.var t)
  else none

/-- Model of CPython compile: a sum of atoms, left associated. -/
def parseSum (l : List Char) : Option Expr :=
  match (splitOnChar '+' l).mapM parseAtom with
  | some (e :: es) => some (es.foldl Expr.add e)
  | _ => none

/-- Model of CPython compile: one line is an assignment or an expression
statement. -/
def parseLine (l : List Char) : Option Stmt :=
  match splitOnChar '=' l with
  | [e] => (parseSum e).map Stmt.exprSt
  | [lhs, rhs] =>
    let x := pyStrip lhs
    if isIdentTok x then (parseSum rhs).map (Stmt.assign x) else none
  | _ => none

/-- Model of the compile call at source line 287: parse the whole cleaned
text into an ordered sequence of top-level units; none models SyntaxError. -/
def parseProgram (text : List Char) : Option (List Stmt) :=
  (splitOnNl text).mapM parseLine

/-- Outcome of one batch: the namespace after it, the text written to the
output stream during it, and the report sent to the host. -/
structure BatchResult where
  ns : Namespace
  out : List Char
  report : Report
deriving DecidableEq

/-- The dual-mode executor of source lines 288-299: to_run_exec is
body[:-1] run in exec mode, to_run_single is body[-1:] run in single
mode; a failure anywhere is wrapped by the inner except and reported by
the outer bare except with the error flag set, and on success the host
is sent an empty text with the flag clear (line 303). -/
def processUnits (ns : Namespace) (units : List Stmt) : BatchResult :=
  match runSeq Mode.exec ns [] units.dropLast with
  | (ns1, out1, some e) => ⟨ns1, out1, ⟨failText e, true⟩⟩
  | (ns1, out1, none) =>
    match runSeq Mode.single ns1 out1 (units.drop (units.length - 1)) with
    | (ns2, out2, some e) => ⟨ns2, out2, ⟨failText e, true⟩⟩
    | (ns2, out2, none) => ⟨ns2, out2, ⟨[], false⟩⟩

/-- One iteration of the main loop on a batch, with an explicit model of
the sc.setJobGroup host call of line 286: jgFault carries the message of
a Py4JJavaError raised by that call, none meaning it succeeded.  Such a
fault reaches the outer typed handler directly (no inner wrap), which is
the only live path through the marker truncation. -/
def processBatchJG (ns : Namespace) (raw : List Char) (jgFault : Option (List Char)) :
    BatchResult :=
  let final_code := buildFinalCode (splitOnNl raw)
  if final_code.isEmpty then ⟨ns, [], ⟨[], false⟩⟩
  else
    match jgFault with
    | some m =>
      let e := PyErr.py4jError m
      ⟨ns, [], py4jOuterHandler (pyFormatExc e) (excInfoStr e)⟩
    | none =>
      match parseProgram (joinNl final_code) with
      | none => ⟨ns, [], ⟨parseErrorText, true⟩⟩
      | some units => processUnits ns units

/-- One iteration of the main loop on a batch when the job-group host
call succeeds. -/
def processBatch (ns : Namespace) (raw : List Char) : BatchResult :=
  processBatchJG ns raw none

/-- The main loop over successive batches: the namespace produced by one
batch is the namespace the next batch starts from, and every batch
yields exactly one result (the outer handlers never let an exception
escape the iteration). -/
def processBatches (ns : Namespace) : List (List Char) → Namespace × List BatchResult
  | [] => (ns, [])
  | b :: bs =>
    let r := processBatch ns b
    let p := processBatches r.ns bs
    (p.1, r :: p.2)

/-- Reconstruction of the executor from the words of the spec, for the
refinement claim: head units (all but the last) run sequentially in
statement mode, then the tail unit (the last) runs in interactive mode,
all against one shared namespace. -/
def dualModeSpec (ns : Namespace) (head : List Stmt) (tailU : Stmt) : BatchResult :=
  match runSeq Mode.exec ns [] head with
  | (ns1, out1, some e) => ⟨ns1, out1, ⟨failText e, true⟩⟩
  | (ns1, out1, none) =>
    match runSeq Mode.single ns1 out1 [tailU] with
    | (ns2, out2, some e) => ⟨ns2, out2, ⟨failText e, true⟩⟩
    | (ns2, out2, none) => ⟨ns2, out2, ⟨[], false⟩⟩

/-- Reconstruction of the splitter from the words of the spec, for the
refinement claim: keep exactly the original lines whose stripped form is
nonempty and does not begin with the comment marker, rejoined by
newlines in order. -/
def splitterSpec (raw : List Char) : List Char :=
  joinNl ((splitOnNl raw).filter
    (fun l => !(pyStrip l).isEmpty && !startsWithL (pyStrip l) (str "#")))

/-- Python set insertion, modelled as order-preserving duplicate-free
append. -/
def setAdd (l : List (List Char)) (x : List Char) : List (List Char) :=
  if x ∈ l then l else l ++ [x]

/-- Adding every element of a list to the set. -/
def setAddAll (l : List (List Char)) (xs : List (List Char)) : List (List Char) :=
  xs.foldl setAdd l

/-- Enumeration of the global namespace names, source lines 165-173: the
keys of globals().  (The bare except around the enumeration cannot fire
for a plain key listing, so the model always succeeds.) -/
def getGlobalCompletion (g : List (List Char)) : Option (List (List Char)) := some g

/-- Dot-stripping of the completion prefix, source lines 183-184: drop
one trailing dot if present. -/
def completionTarget (t : List Char) : List Char :=
  if t.getLast? = some '.' then t.dropLast else t

/-- Attribute enumeration for a prefix, source lines 175-189: empty text
yields nothing; otherwise one trailing dot is stripped and the target is
resolved dynamically, any failure being swallowed into none.  The
dynamic dir() enumeration is the resolve parameter, a model of the
CPython runtime. -/
def getMethodCompletion (resolve : List Char → Option (List (List Char)))
    (t : List Char) : Option (List (List Char)) :=
  if t.length = 0 then none
  else resolve (completionTarget t)

/-- The candidate set built by getCompletion, source lines 193-204:
global names, then attribute names when a prefix was supplied and
resolved. -/
def completionCandidates (g : List (List Char))
    (resolve : List Char → Option (List (List Char)))
    (tv : Option (List Char)) : List (List Char) :=
  let cl :=
    match getGlobalCompletion g with
    | some gl => setAddAll [] gl
    | none => []
  match tv with
  | none => cl
  | some t =>
    match getMethodCompletion resolve t with
    | some ol => setAddAll cl ol
    | none => cl

/-- The internal-name filter of source line 208: re.match of ^__.* keeps
exactly the names that do not begin with two underscores. -/
def internalMatch (x : List Char) : Bool := startsWithL x (str "__")

/-- The filtered candidate set serialized at source line 208. -/
def completionResultSet (g : List (List Char))
    (resolve : List Char → Option (List (List Char)))
    (tv : Option (List Char)) : List (List Char) :=
  (completionCandidates g resolve tv).filter (fun x => !internalMatch x)

/-- JSON encoding of one name. -/
def jsonStr (s : List Char) : List Char := '"' :: (s ++ ['"'])

/-- JSON encoding of the items of a list, comma separated. -/
def jsonItems : List (List Char) → List Char
  | [] => []
  | [x] => jsonStr x
  | x :: y :: t => jsonStr x ++ str ", " ++ jsonItems (y :: t)

/-- Model of json.dumps on a list of names. -/
def jsonDumpsList (xs : List (List Char)) : List Char := '[' :: (jsonItems xs ++ [']'])

/-- A resolver that always fails, modelling an unresolvable prefix. -/
def resolveNone : List Char → Option (List (List Char)) := fun _ => none

/-- The completion reply of source lines 205-209: when the candidate set
is empty before filtering, an empty text is sent with the flag clear;
otherwise the JSON encoding of the filtered set is sent with the flag
clear. -/
def getCompletion (g : List (List Char))
    (resolve : List Char → Option (List (List Char)))
    (tv : Option (List Char)) : Report :=
  if (completionCandidates g resolve tv).length = 0 then ⟨[], false⟩
  else ⟨jsonDumpsList (completionResultSet g resolve tv), false⟩

/-- One call the proxy makes on the host ZeppelinContext object. -/
inductive HostCall (K V : Type) where
  | put : K → V → HostCall K V
  | get : K → HostCall K V
  | containsKey : K → HostCall K V
  | remove : K → HostCall K V

/-- The host ZeppelinContext as seen by the proxy: the replies it gives
to value-returning calls. -/
structure JavaContext (K V : Type) where
  getv : K → V
  containsv : K → Bool

/-- Model of PyZeppelinContext setitem, source lines 73-74: one put call. -/
def zsetitem {K V : Type} (k : K) (v : V) : List (HostCall K V) := [HostCall.put k v]

/-- Model of PyZeppelinContext getitem, source lines 76-77: one get call,
its reply returned untouched. -/
def zgetitem {K V : Type} (z : JavaContext K V) (k : K) : V × List (HostCall K V) :=
  (z.getv k, [HostCall.get k])

/-- Model of PyZeppelinContext delitem, source lines 79-80: one remove call. -/
def zdelitem (K V : Type) (k : K) : List (HostCall K V) := [HostCall.remove k]

/-- Model of PyZeppelinContext contains, source lines 82-83: one
containsKey call, its reply returned untouched. -/
def zcontains {K V : Type} (z : JavaContext K V) (k : K) : Bool × List (HostCall K V) :=
  (z.containsv k, [HostCall.containsKey k])

/-- Model of PyZeppelinContext.add, source lines 109-110: delegates to
setitem. -/
def zadd {K V : Type} (k : K) (v : V) : List (HostCall K V) := zsetitem k v

/-- Model of PyZeppelinContext.put, source lines 112-113: delegates to
setitem. -/
def zput {K V : Type} (k : K) (v : V) : List (HostCall K V) := zsetitem k v

/-- Model of PyZeppelinContext.get, source lines 115-116: delegates to
getitem. -/
def zget {K V : Type} (z : JavaContext K V) (k : K) : V × List (HostCall K V) :=
  zgetitem z k

/-- The line-filtering loop computes exactly the keepLine filter. -/
theorem buildFinalCode_eq_filter (ls : List (List Char)) :
    buildFinalCode ls = ls.filter keepLine := by
  induction ls with
  | nil => rfl
  | cons s t ih =>
    cases h : ((pyStrip s).isEmpty || startsWithL (pyStrip s) (str "#")) with
    | true => simp [buildFinalCode, h, keepLine, List.filter_cons, ih]
    | false => simp [buildFinalCode, h, keepLine, List.filter_cons, ih]

/-- Running a sequence that succeeds and then continuing equals running
the concatenation. -/
theorem runSeq_append (m : Mode) (pre rest : List Stmt) :
    ∀ (ns : Namespace) (out : List Char) (ns1 : Namespace) (out1 : List Char),
      runSeq m ns out pre = (ns1, out1, none) →
      runSeq m ns out (pre ++ rest) = runSeq m ns1 out1 rest := by
  induction pre with
  | nil =>
    intro ns out ns1 out1 h
    simp [runSeq] at h
    simp [h.1, h.2]
  | cons s t ih =>
    intro ns out ns1 out1 h
    cases he : execStmt m ns s with
    | ok p =>
      rw [List.cons_append]
      simp only [runSeq, he] at h ⊢
      exact ih _ _ _ _ h
    | error e => simp [runSeq, he] at h

/-- Statement-mode execution of a whole sequence echoes nothing: the
output stream is exactly what it was before. -/
theorem runSeq_exec_out (l : List Stmt) :
    ∀ (ns : Namespace) (out : List Char), (runSeq Mode.exec ns out l).2.1 = out := by
  induction l with
  | nil => intro ns out; rfl
  | cons s t ih =>
    intro ns out
    cases s with
    | assign x e =>
      cases he : evalExpr ns e with
      | error er => simp [runSeq, execStmt, he]
      | ok v => simp [runSeq, execStmt, he, ih]
    | exprSt e =>
      cases he : evalExpr ns e with
      | error er => simp [runSeq, execStmt, he]
      | ok v => simp [runSeq, execStmt, he, ih]

/-- The body[-1:] slice of a sequence written as hd ++ [t1] is [t1]. -/
theorem drop_len_concat (hd : List Stmt) (t1 : Stmt) :
    (hd ++ [t1]).drop ((hd ++ [t1]).length - 1) = [t1] := by
  have h : (hd ++ [t1]).length - 1 = hd.length := by simp
  rw [h, List.drop_left]

/-- Updating a binding makes lookup of that name return the new value. -/
theorem lookup_nsSet_self (ns : Namespace) (x : List Char) (v : Int) :
    lookupNs (nsSet ns x v) x = some v := by
  induction ns with
  | nil => simp [nsSet, lookupNs]
  | cons kv t ih =>
    obtain ⟨k, w⟩ := kv
    by_cases h : k = x
    · simp [nsSet, h, lookupNs]
    · simp [nsSet, h, lookupNs, ih]

/-- The index returned by findSub is an occurrence of the needle. -/
theorem findSub_drop (needle : List Char) :
    ∀ (hay : List Char) (i : Nat), findSub needle hay = some i →
      startsWithL (hay.drop i) needle = true := by
  intro hay
  induction hay with
  | nil =>
    intro i h
    unfold findSub at h
    split at h
    · injection h with h2
      subst h2
      simpa using by assumption
    · exact absurd h (by simp)
  | cons c t ih =>
    intro i h
    unfold findSub at h
    split at h
    · injection h with h2
      subst h2
      simpa using by assumption
    · cases hf : findSub needle t with
      | none => rw [hf] at h; simp at h
      | some j =>
        rw [hf] at h
        simp at h
        subst h
        simpa [List.drop_succ_cons] using ih j hf

/-- The index returned by findSub is the first occurrence of the needle. -/
theorem findSub_min (needle : List Char) :
    ∀ (hay : List Char) (i : Nat), findSub needle hay = some i →
      ∀ j, j < i → startsWithL (hay.drop j) needle = false := by
  intro hay
  induction hay with
  | nil =>
    intro i h j hj
    unfold findSub at h
    split at h
    · injection h with h2; omega
    · exact absurd h (by simp)
  | cons c t ih =>
    intro i h j hj
    unfold findSub at h
    split at h
    · injection h with h2; omega
    · rename_i hcond
      cases hf : findSub needle t with
      | none => rw [hf] at h; simp at h
      | some jj =>
        rw [hf] at h
        simp at h
        subst h
        cases j with
        | zero => simpa using Bool.not_eq_true _ |>.mp hcond
        | succ k =>
          simpa [List.drop_succ_cons] using ih jj hf k (by omega)

/-- Set insertion preserves duplicate freedom. -/
theorem setAdd_nodup (l : List (List Char)) (x : List Char) (h : l.Nodup) :
    (setAdd l x).Nodup := by
  by_cases hx : x ∈ l
  · simpa [setAdd, hx] using h
  · simp [setAdd, hx, List.nodup_append, h]

/-- Adding a whole list to a duplicate-free set keeps it duplicate free. -/
theorem setAddAll_nodup (xs : List (List Char)) :
    ∀ (l : List (List Char)), l.Nodup → (setAddAll l xs).Nodup := by
  induction xs with
  | nil => intro l h; simpa [setAddAll] using h
  | cons x t ih =>
    intro l h
    have : setAddAll l (x :: t) = setAddAll (setAdd l x) t := by
      simp [setAddAll]
    rw [this]
    exact ih _ (setAdd_nodup l x h)

/-- The candidate set getCompletion builds is duplicate free. -/
theorem completionCandidates_nodup (g : List (List Char))
    (resolve : List Char → Option (List (List Char))) (tv : Option (List Char)) :
    (completionCandidates g resolve tv).Nodup := by
  have h0 : (setAddAll [] g).Nodup := setAddAll_nodup g [] (by simp)
  cases tv with
  | none => simpa [completionCandidates, getGlobalCompletion] using h0
  | some t =>
    cases hm : getMethodCompletion resolve t with
    | none => simpa [completionCandidates, getGlobalCompletion, hm] using h0
    | some ol =>
      simpa [completionCandidates, getGlobalCompletion, hm] using
        setAddAll_nodup ol _ h0

/-- Shared shape of a head-unit failure: the prefix that succeeded fixes
the namespace and output, the failing unit produces the wrapped
diagnostic, and nothing after the failing unit matters. -/
theorem processUnits_head_fail (ns nsPre : Namespace) (outPre : List Char)
    (pre post : List Stmt) (s t1 : Stmt) (e : PyErr)
    (hpre : runSeq Mode.exec ns [] pre = (nsPre, outPre, none))
    (hfail : execStmt Mode.exec nsPre s = .error e) :
    processUnits ns (pre ++ s :: (post ++ [t1])) = ⟨nsPre, outPre, ⟨failText e, true⟩⟩ := by
  have hl : pre ++ s :: (post ++ [t1]) = (pre ++ s :: post) ++ [t1] := by simp
  rw [hl]
  unfold processUnits
  rw [List.dropLast_concat]
  rw [runSeq_append Mode.exec pre (s :: post) ns [] nsPre outPre hpre]
  simp [runSeq, hfail]

/-- Executing the batch whose only kept line is an assignment of 1 to x
binds x to 1 in the resulting namespace, whatever namespace it started
from. -/
theorem processBatch_x_eq_one (ns : Namespace) :
    processBatch ns (str "x = 1") = ⟨nsSet ns (str "x") 1, [], ⟨[], false⟩⟩ := by
  have h1 : buildFinalCode (splitOnNl (str "x = 1")) = [str "x = 1"] := by decide
  have h2 : parseProgram (joinNl [str "x = 1"]) =
      some [Stmt.assign (str "x") (Expr.lit 1)] := by decide
  simp [processBatch, processBatchJG, h1, h2, processUnits, runSeq, execStmt, evalExpr]

/-- Executing the batch whose only kept line is the expression x, from
any namespace binding x to 1, echoes the representation of 1. -/
theorem processBatch_read_x (ns : Namespace) (h : lookupNs ns (str "x") = some 1) :
    processBatch ns (str "x") = ⟨ns, str "1\n", ⟨[], false⟩⟩ := by
  have h1 : buildFinalCode (splitOnNl (str "x")) = [str "x"] := by decide
  have h2 : parseProgram (joinNl [str "x"]) =
      some [Stmt.exprSt (Expr.var (str "x"))] := by decide
  have h3 : pyReprInt 1 = ['1'] := by decide
  have h4 : str "1\n" = ['1', '\n'] := by decide
  simp [processBatch, processBatchJG, h1, h2, processUnits, runSeq, execStmt, evalExpr,
    h, h3, h4]

/-- C1: for every batch whose cleaned text parses into at least one
unit, the executor runs the units before the last sequentially in
statement mode (which echoes nothing) and the last unit in interactive
mode (which echoes the value of an expression and nothing for an
assignment); concretely, a batch ending in the expression 2 + 2 writes
output containing 4 and a batch ending in the assignment of 5 to x
writes no value-echo output. -/
theorem c1_dual_mode_executor :
    (∀ (ns : Namespace) (hd : List Stmt) (t1 : Stmt),
        processUnits ns (hd ++ [t1]) = dualModeSpec ns hd t1) ∧
    (∀ (ns : Namespace) (out : List Char) (hd : List Stmt),
        (runSeq Mode.exec ns out hd).2.1 = out) ∧
    (∀ (ns : Namespace) (e : Expr) (v : Int), evalExpr ns e = .ok v →
        execStmt Mode.single ns (Stmt.exprSt e) = .ok (ns, pyReprInt v ++ ['\n'])) ∧
    (∀ (ns : Namespace) (x : List Char) (e : Expr) (v : Int), evalExpr ns e = .ok v →
        execStmt Mode.single ns (Stmt.assign x e) = .ok (nsSet ns x v, [])) ∧
    (processBatch [] (str "x = 7\n2 + 2")).out = str "4\n" ∧
    (processBatch [] (str "x = 7\n2 + 2")).report = ⟨[], false⟩ ∧
    (processBatch [] (str "x = 1\nx = 5")).out = [] ∧
    (processBatch [] (str "x = 1\nx = 5")).report = ⟨[], false⟩ := by
  refine ⟨?_, ?_, ?_, ?_, by decide, by decide, by decide, by decide⟩
  · intro ns hd t1
    unfold processUnits dualModeSpec
    rw [List.dropLast_concat, drop_len_concat]
  · intro ns out hd
    exact runSeq_exec_out hd ns out
  · intro ns e v h
    simp [execStmt, h]
  · intro ns x e v h
    simp [execStmt, h]

/-- Witness for C1: the dual-mode equality and the interactive echo
instantiated at concrete inputs. -/
theorem c1_witness :
    processUnits [] ([Stmt.assign (str "x") (Expr.lit 7)] ++ [Stmt.exprSt (Expr.lit 4)]) =
      dualModeSpec [] [Stmt.assign (str "x") (Expr.lit 7)] (Stmt.exprSt (Expr.lit 4)) ∧
    execStmt Mode.single [] (Stmt.exprSt (Expr.lit 4)) = .ok ([], pyReprInt 4 ++ ['\n']) :=
  ⟨c1_dual_mode_executor.1 [] [Stmt.assign (str "x") (Expr.lit 7)] (Stmt.exprSt (Expr.lit 4)),
    c1_dual_mode_executor.2.2.1 [] (Expr.lit 4) 4 rfl⟩

/-- C2: when a head unit of a batch with more than one unit fails at
runtime, the namespace keeps exactly the side effects of the head units
that succeeded before it, the units after the failing one are never
executed (the result does not depend on them), the batch is reported
failed with the error flag set, and the main loop still produces one
report per batch. -/
theorem c2_head_failure :
    (∀ (ns nsPre : Namespace) (outPre : List Char) (pre post : List Stmt)
        (s t1 : Stmt) (e : PyErr),
        runSeq Mode.exec ns [] pre = (nsPre, outPre, none) →
        execStmt Mode.exec nsPre s = .error e →
        processUnits ns (pre ++ s :: (post ++ [t1])) =
          ⟨nsPre, outPre, ⟨failText e, true⟩⟩ ∧
        (processUnits ns (pre ++ s :: (post ++ [t1]))).report.isError = true) ∧
    (∀ (ns : Namespace) (bs : List (List Char)),
        ((processBatches ns bs).2).length = bs.length) := by
  constructor
  · intro ns nsPre outPre pre post s t1 e hpre hfail
    have h := processUnits_head_fail ns nsPre outPre pre post s t1 e hpre hfail
    exact ⟨h, by rw [h]⟩
  · intro ns bs
    induction bs generalizing ns with
    | nil => rfl
    | cons b t ih => simp [processBatches, ih]

/-- Witness for C2: a two-head batch whose second head unit reads an
unbound name; the assignment before it persists, the assignment after it
never happens, and the outcome is a failure report. -/
theorem c2_witness :
    processUnits []
        ([Stmt.assign (str "x") (Expr.lit 1)] ++
          Stmt.exprSt (Expr.var (str "y")) ::
            ([Stmt.assign (str "z") (Expr.lit 2)] ++ [Stmt.exprSt (Expr.lit 0)])) =
      ⟨[(str "x", 1)], [],
        ⟨failText (PyErr.localError (str "NameError: name " ++ str "y" ++
          str " is not defined")), true⟩⟩ :=
  (c2_head_failure.1 [] [(str "x", 1)] [] [Stmt.assign (str "x") (Expr.lit 1)]
    [Stmt.assign (str "z") (Expr.lit 2)] (Stmt.exprSt (Expr.var (str "y")))
    (Stmt.exprSt (Expr.lit 0))
    (PyErr.localError (str "NameError: name " ++ str "y" ++ str " is not defined"))
    rfl rfl).1

/-- C3 counterexample: a Py4JJavaError raised while executing a unit of
the batch is wrapped into a plain Exception by the inner handler, so it
reaches the bare except and the reported diagnostic does not begin at
the host-side error marker, refuting the claim at this input. -/
theorem c3_counterexample :
    startsWithL (processUnits [] [Stmt.exprSt (Expr.callPy4J (str "boom"))]).report.text
      py4jMarker = false ∧
    (processUnits [] [Stmt.exprSt (Expr.callPy4J (str "boom"))]).report.isError = true := by
  decide

set_option maxRecDepth 8000 in
/-- C3 as amended: the marker truncation lives in the outer typed
handler, which a Py4JJavaError reaches only when raised outside the
inner per-unit try (for example during the job-group host call): there
the report is the trace truncated to the first marker occurrence with
the exception info appended.  A Py4JJavaError raised during unit
execution instead reaches the bare except, and its report merely
contains the marker somewhere inside rather than at the start. -/
theorem c3_amended_truncation :
    (∀ (t info : List Char) (i : Nat), findSub py4jMarker t = some i →
        py4jOuterHandler t info = ⟨t.drop i ++ info, true⟩ ∧
        startsWithL (t.drop i) py4jMarker = true ∧
        ∀ j, j < i → startsWithL (t.drop j) py4jMarker = false) ∧
    ((processBatchJG [] (str "x") (some (str "boom"))).report.text =
        py4jMarker ++ str " boom\n" ++ excInfoStr (PyErr.py4jError (str "boom")) ∧
      (processBatchJG [] (str "x") (some (str "boom"))).report.isError = true) ∧
    (findSub py4jMarker
        (processUnits [] [Stmt.exprSt (Expr.callPy4J (str "boom"))]).report.text ≠ none) := by
  refine ⟨?_, ⟨by decide, by decide⟩, by decide⟩
  intro t info i h
  refine ⟨?_, findSub_drop py4jMarker t i h, findSub_min py4jMarker t i h⟩
  unfold py4jOuterHandler
  rw [h]

/-- Witness for C3: the outer handler applied to a concrete trace whose
marker occurrence is at index three. -/
theorem c3_amended_witness :
    py4jOuterHandler (str "abcPy4JJavaError: x") (str "INFO") =
      ⟨(str "abcPy4JJavaError: x").drop 3 ++ str "INFO", true⟩ :=
  (c3_amended_truncation.1 (str "abcPy4JJavaError: x") (str "INFO") 3 (by decide)).1

/-- C4 counterexample: with the namespace binding exactly alpha and
_hidden, the filtered candidate set still contains _hidden, because the
filter pattern requires two leading underscores; so the result is not
exactly the singleton alpha. -/
theorem c4_counterexample :
    str "_hidden" ∈ completionResultSet [str "alpha", str "_hidden"] resolveNone none ∧
    ¬(∀ x ∈ completionResultSet [str "alpha", str "_hidden"] resolveNone none,
        x = str "alpha") := by
  decide

/-- C4 as amended: the candidate set is duplicate free and excludes
every name beginning with two underscores, but names with a single
leading underscore pass the filter: with the names alpha and _hidden
bound, the result is exactly the pair of them. -/
theorem c4_amended_filter :
    (∀ (g : List (List Char)) (resolve : List Char → Option (List (List Char)))
        (tv : Option (List Char)), (completionResultSet g resolve tv).Nodup) ∧
    (∀ (g : List (List Char)) (resolve : List Char → Option (List (List Char)))
        (tv : Option (List Char)) (x : List Char),
        x ∈ completionResultSet g resolve tv → startsWithL x (str "__") = false) ∧
    (∀ x : List Char,
        x ∈ completionResultSet [str "alpha", str "_hidden"] resolveNone none ↔
          (x = str "alpha" ∨ x = str "_hidden")) := by
  refine ⟨?_, ?_, ?_⟩
  · intro g resolve tv
    exact List.Nodup.filter _ (completionCandidates_nodup g resolve tv)
  · intro g resolve tv x hx
    have hm := List.of_mem_filter hx
    simpa [internalMatch] using hm
  · intro x
    have h : completionResultSet [str "alpha", str "_hidden"] resolveNone none =
        [str "alpha", str "_hidden"] := by decide
    rw [h]
    simp

/-- Witness for C4: the name alpha is in the concrete filtered result
and does not begin with two underscores. -/
theorem c4_amended_witness : startsWithL (str "alpha") (str "__") = false :=
  c4_amended_filter.2.1 [str "alpha", str "_hidden"] resolveNone none (str "alpha")
    (by decide)

/-- C5: the main loop feeds the namespace produced by each batch into
the next one; a batch assigning 1 to x leaves x bound to 1 from any
starting namespace, any later batch reading x from a namespace where x
is 1 echoes 1, and the concrete two-batch run shows the value crossing
the batch boundary. -/
theorem c5_namespace_persistence :
    (∀ (ns : Namespace) (b : List Char) (bs : List (List Char)),
        processBatches ns (b :: bs) =
          ((processBatches (processBatch ns b).ns bs).1,
            processBatch ns b :: (processBatches (processBatch ns b).ns bs).2)) ∧
    (∀ ns : Namespace,
        lookupNs (processBatch ns (str "x = 1")).ns (str "x") = some 1) ∧
    (∀ ns2 : Namespace, lookupNs ns2 (str "x") = some 1 →
        processBatch ns2 (str "x") = ⟨ns2, str "1\n", ⟨[], false⟩⟩) ∧
    ((processBatches [] [str "x = 1", str "x"]).2.map (fun r => r.out) =
        [[], str "1\n"]) := by
  refine ⟨fun ns b bs => rfl, ?_, ?_, by decide⟩
  · intro ns
    simp [processBatch_x_eq_one ns, lookup_nsSet_self]
  · exact fun ns2 h => processBatch_read_x ns2 h

/-- Witness for C5: reading x from a namespace binding it to 1 echoes 1. -/
theorem c5_witness :
    processBatch [(str "x", 1)] (str "x") = ⟨[(str "x", 1)], str "1\n", ⟨[], false⟩⟩ :=
  c5_namespace_persistence.2.2.1 [(str "x", 1)] (by decide)

/-- C6: a batch all of whose lines are blank or comment-only is a
no-op: the namespace is unchanged, nothing is written to the output
stream, and the report is an empty text with the error flag clear. -/
theorem c6_noop_batch (ns : Namespace) (raw : List Char)
    (h : ∀ l ∈ splitOnNl raw, keepLine l = false) :
    processBatch ns raw = ⟨ns, [], ⟨[], false⟩⟩ := by
  have hf : buildFinalCode (splitOnNl raw) = [] := by
    rw [buildFinalCode_eq_filter]
    refine List.filter_eq_nil_iff.mpr ?_
    intro a ha
    simp [h a ha]
  simp [processBatch, processBatchJG, hf]

/-- Witness for C6: a comment line followed by a blank line is a no-op
from a nonempty namespace. -/
theorem c6_witness :
    processBatch [(str "a", 1)] (str "# note\n   ") = ⟨[(str "a", 1)], [], ⟨[], false⟩⟩ :=
  c6_noop_batch [(str "a", 1)] (str "# note\n   ") (by decide)

/-- C7: the splitter keeps exactly the original unstripped lines whose
stripped form is nonempty and does not start with the comment marker,
preserving their original order as a sublist of the split lines, and its
output is the newline rejoin described by the spec. -/
theorem c7_splitter (raw : List Char) :
    buildFinalCode (splitOnNl raw) = (splitOnNl raw).filter keepLine ∧
    (buildFinalCode (splitOnNl raw)).Sublist (splitOnNl raw) ∧
    joinNl (buildFinalCode (splitOnNl raw)) = splitterSpec raw := by
  refine ⟨buildFinalCode_eq_filter _, ?_, ?_⟩
  · rw [buildFinalCode_eq_filter]
    exact List.filter_sublist _
  · rw [buildFinalCode_eq_filter]
    unfold splitterSpec
    congr 1
    apply List.filter_congr
    intro x hx
    simp [keepLine, Bool.not_or]

/-- C8 counterexample: with the single bound name __x the filtered set
is empty, yet the reported text is the JSON empty list, not the empty
text the claim asserts (the empty-text reply happens only when the set
is empty before filtering). -/
theorem c8_counterexample :
    completionResultSet [str "__x"] resolveNone none = [] ∧
    (getCompletion [str "__x"] resolveNone none).text ≠ [] ∧
    (getCompletion [str "__x"] resolveNone none).isError = false := by
  decide

/-- C8 as amended: a completion reply always carries the error flag
clear; when no candidates exist at all the text is empty, and when
candidates exist but the filter removes them all the text is the JSON
encoding of the empty list. -/
theorem c8_empty_result :
    (∀ (g : List (List Char)) (resolve : List Char → Option (List (List Char)))
        (tv : Option (List Char)), (getCompletion g resolve tv).isError = false) ∧
    (∀ (g : List (List Char)) (resolve : List Char → Option (List (List Char)))
        (tv : Option (List Char)), completionCandidates g resolve tv = [] →
        getCompletion g resolve tv = ⟨[], false⟩) ∧
    (∀ (g : List (List Char)) (resolve : List Char → Option (List (List Char)))
        (tv : Option (List Char)), completionCandidates g resolve tv ≠ [] →
        completionResultSet g resolve tv = [] →
        getCompletion g resolve tv = ⟨str "[]", false⟩) := by
  refine ⟨?_, ?_, ?_⟩
  · intro g r tv
    unfold getCompletion
    split <;> rfl
  · intro g r tv h
    unfold getCompletion
    rw [h]
    simp
  · intro g r tv h hres
    have hcond : ¬((completionCandidates g r tv).length = 0) :=
      fun hl => h (List.length_eq_zero.mp hl)
    unfold getCompletion
    rw [if_neg hcond, hres]
    rfl

/-- Witness for C8: the all-filtered namespace produces the JSON empty
list with the error flag clear. -/
theorem c8_witness : getCompletion [str "__x"] resolveNone none = ⟨str "[]", false⟩ :=
  c8_empty_result.2.2 [str "__x"] resolveNone none (by decide) (by decide)

/-- C9: a prefix whose resolution fails contributes no candidates, so
the completion result equals the no-prefix result over the same
namespace; and before resolution exactly one trailing dot is stripped
from the prefix. -/
theorem c9_resolution_failure_swallowed :
    (∀ (g : List (List Char)) (resolve : List Char → Option (List (List Char)))
        (tv : List Char), resolve (completionTarget tv) = none →
        getCompletion g resolve (some tv) = getCompletion g resolve none) ∧
    (∀ s : List Char, completionTarget (s ++ ['.']) = s) ∧
    (∀ t : List Char, t.getLast? ≠ some '.' → completionTarget t = t) := by
  refine ⟨?_, ?_, ?_⟩
  · intro g r tv h
    have hm : getMethodCompletion r tv = none := by
      unfold getMethodCompletion
      split
      · rfl
      · exact h
    have hc : completionCandidates g r (some tv) = completionCandidates g r none := by
      unfold completionCandidates
      simp [hm]
    have hr : completionResultSet g r (some tv) = completionResultSet g r none := by
      unfold completionResultSet
      rw [hc]
    unfold getCompletion
    rw [hc, hr]
  · intro s
    unfold completionTarget
    rw [List.getLast?_concat]
    simp [List.dropLast_concat]
  · intro t h
    unfold completionTarget
    rw [if_neg h]

/-- Witness for C9: an unresolvable dotted prefix gives the same reply
as no prefix. -/
theorem c9_witness :
    getCompletion [str "alpha"] resolveNone (some (str "undefined_name.")) =
      getCompletion [str "alpha"] resolveNone none :=
  c9_resolution_failure_swallowed.1 [str "alpha"] resolveNone (str "undefined_name.") rfl

/-- C10: add, put and item assignment are one identical put call on the
host store; get and item access are the same single host get whose reply
is returned untouched; membership is the single host containsKey; item
deletion is the single host remove; the proxy adds nothing else. -/
theorem c10_proxy_forwarding :
    ∀ (K V : Type) (z : JavaContext K V) (k : K) (v : V),
      zadd k v = [HostCall.put k v] ∧
      zput k v = [HostCall.put k v] ∧
      zsetitem k v = [HostCall.put k v] ∧
      zadd k v = zsetitem k v ∧
      zput k v = zsetitem k v ∧
      zget z k = (z.getv k, [HostCall.get k]) ∧
      zgetitem z k = (z.getv k, [HostCall.get k]) ∧
      zget z k = zgetitem z k ∧
      zcontains z k = (z.containsv k, [HostCall.containsKey k]) ∧
      zdelitem K V k = [HostCall.remove k] :=
  fun _ _ _ _ _ => ⟨rfl, rfl, rfl, rfl, rfl, rfl, rfl, rfl, rfl, rfl⟩

end Zep
